import Mathlib

/-!
Shallow embedding of the transcription-job queue core of
`src/backend/src/db.rs` (trait `TranscriptionExt` for `DBClient`):
`enqueue_transcription`, `claim_transcription_jobs`,
`get_transcription_job`, `finalize_transcription_job`.

The store is the `transcription_jobs` table, modelled as a list of rows.
Each operation is a single SQL statement in the source and therefore runs
atomically on the database; we model each call as one atomic step on the
store, and `now()` as an explicit timestamp argument.  Timestamps are
`Nat`, uuids are `Nat`, the `i32`/`i64` columns are `Int` (Postgres
errors on integer overflow rather than wrapping; no claim depends on it).
Database-level failures (a negative `LIMIT`, a failed cast of a string to
the `transcription_status` enum) surface in the Rust code as
`sqlx::Error`; they are modelled by `DbError.storeError`.
-/

namespace TranscriptionDb

/-- The `transcription_status` Postgres enum: the status column's domain. -/
inductive JobStatus
  | enqueued
  | processing
  | succeeded
  | failed
deriving DecidableEq

/-- One row of `transcription_jobs`, mirroring `struct TranscriptionJob`
in `src/backend/src/db.rs` field for field (the Rust struct reads
`status::text`; we keep the enum type since the column is enum-valued). -/
structure TranscriptionJob where
  id : Nat
  user_id : Option Nat
  source_url : String
  status : JobStatus
  priority : Int
  attempts : Int
  max_attempts : Int
  worker_id : Option String
  started_at : Option Nat
  finished_at : Option Nat
  last_error : Option String
  transcript : Option String
  transcript_format : Option String
  duration_seconds : Option Int
  size_bytes : Option Int
  created_at : Nat
  updated_at : Nat
deriving DecidableEq

abbrev Store := List TranscriptionJob

/-- A database-level error surfaced to the Rust caller as `sqlx::Error`
(e.g. Postgres rejecting `LIMIT $2` for a negative bind, or a failed
cast `$2::transcription_status`). -/
inductive DbError
  | storeError
deriving DecidableEq

/-- The comparison realised by `ORDER BY priority DESC, created_at ASC`
in the claim query's CTE: `a` comes no later than `b`. -/
def claimOrder (a b : TranscriptionJob) : Prop :=
  b.priority < a.priority ∨
    (a.priority = b.priority ∧ a.created_at ≤ b.created_at)

instance : DecidableRel claimOrder := fun a b =>
  inferInstanceAs (Decidable (b.priority < a.priority ∨
    (a.priority = b.priority ∧ a.created_at ≤ b.created_at)))

instance : IsTrans TranscriptionJob claimOrder :=
  ⟨fun a b c h₁ h₂ => by
    unfold claimOrder at h₁ h₂ ⊢
    omega⟩

instance : IsTotal TranscriptionJob claimOrder :=
  ⟨fun a b => by
    unfold claimOrder
    omega⟩

/-- The rows `SELECT id FROM transcription_jobs WHERE status = 'enqueued'
ORDER BY priority DESC, created_at ASC` ranges over, in that order (ties
beyond the two sort keys are unordered in SQL; a stable sort is one
valid refinement). -/
def eligibleSorted (s : Store) : List TranscriptionJob :=
  List.insertionSort claimOrder
    (s.filter fun j => decide (j.status = JobStatus.enqueued))

/-- The per-row effect of the claim UPDATE:
`status = 'processing', worker_id = $1, started_at = now(),
attempts = attempts + 1, updated_at = now()`. -/
def claimUpdateRow (worker : String) (now : Nat) (j : TranscriptionJob) :
    TranscriptionJob :=
  { j with
    status := JobStatus.processing
    worker_id := some worker
    started_at := some now
    attempts := j.attempts + 1
    updated_at := now }

/-- The CTE of the claim query:
`SELECT id ... WHERE status = 'enqueued' ORDER BY ... LIMIT $2`
(arriving here means the bound limit was accepted, i.e. nonnegative). -/
def claimSel (s : Store) (limit : Int) : List TranscriptionJob :=
  (eligibleSorted s).take limit.toNat

/-- The ids the CTE selects. -/
def claimSelIds (s : Store) (limit : Int) : List Nat :=
  (claimSel s limit).map fun j => j.id

/-- Model of `claim_transcription_jobs(worker_id, limit)`: the CTE selects up to
`limit` ids of `enqueued` rows ordered by `priority DESC, created_at ASC`
(with `FOR UPDATE SKIP LOCKED`; the whole statement is atomic), the
UPDATE rewrites every row whose id is in the selection and RETURNING
yields the post-update rows.  The source does not validate `limit`:
Postgres accepts `LIMIT 0` (empty result) and rejects a negative limit
with a database error.  Returns the batch and the new table state. -/
def claim_transcription_jobs (s : Store) (worker : String) (limit : Int)
    (now : Nat) : Except DbError (List TranscriptionJob × Store) :=
  if limit < 0 then Except.error DbError.storeError
  else
    Except.ok
      ((claimSel s limit).map (claimUpdateRow worker now),
        s.map fun j =>
          if j.id ∈ claimSelIds s limit then claimUpdateRow worker now j
          else j)

/-- Modelled from the spec: `enqueue_transcription` INSERTs only
`(user_id, source_url, priority)` and relies on column defaults of the
`transcription_jobs` schema, whose migration is not under `src/`.  Per
the spec the new row starts in `enqueued` state with `attempts = 0`, a
fresh id, `created_at`/`updated_at` set at insert time, `max_attempts`
fixed at creation and every optional column unset. -/
def newJobRow (user_id : Option Nat) (source_url : String) (priority : Int)
    (max_attempts : Int) (new_id : Nat) (now : Nat) : TranscriptionJob :=
  { id := new_id
    user_id := user_id
    source_url := source_url
    status := JobStatus.enqueued
    priority := priority
    attempts := 0
    max_attempts := max_attempts
    worker_id := none
    started_at := none
    finished_at := none
    last_error := none
    transcript := none
    transcript_format := none
    duration_seconds := none
    size_bytes := none
    created_at := now
    updated_at := now }

/-- Model of `enqueue_transcription(user_id, source_url, priority)`: INSERT a new
row, RETURNING its generated id.  The fresh id is an explicit argument
(the database generates it). -/
def enqueue_transcription (s : Store) (user_id : Option Nat)
    (source_url : String) (priority : Int) (max_attempts : Int)
    (new_id : Nat) (now : Nat) : Nat × Store :=
  (new_id, s ++ [newJobRow user_id source_url priority max_attempts new_id now])

/-- Model of `get_transcription_job(job_id)`: read-only SELECT by primary key. -/
def get_transcription_job (s : Store) (job_id : Nat) :
    Option TranscriptionJob :=
  s.find? fun j => decide (j.id = job_id)

/-- The cast `$2::transcription_status` of the status string bound in
`finalize_transcription_job`: any of the four enum labels succeeds, any
other string makes the statement fail with a database error. -/
def parseStatus (st : String) : Option JobStatus :=
  if st = "enqueued" then some JobStatus.enqueued
  else if st = "processing" then some JobStatus.processing
  else if st = "succeeded" then some JobStatus.succeeded
  else if st = "failed" then some JobStatus.failed
  else none

/-- The per-row effect of the finalize UPDATE: every SET clause is
unconditional, so `transcript`, `transcript_format`, `last_error`,
`duration_seconds` and `size_bytes` are overwritten with the bound
values (possibly NULL), `finished_at`/`updated_at` with `now()`. -/
def finalizeUpdateRow (st : JobStatus)
    (transcript transcript_format last_error : Option String)
    (duration_seconds size_bytes : Option Int) (now : Nat)
    (j : TranscriptionJob) : TranscriptionJob :=
  { j with
    status := st
    transcript := transcript
    transcript_format := transcript_format
    last_error := last_error
    finished_at := some now
    duration_seconds := duration_seconds
    size_bytes := size_bytes
    updated_at := now }

/-- Model of `finalize_transcription_job(job_id, status, ...)`: a single UPDATE
with `WHERE id = $1` and no status guard.  The source discards the
rows-affected count (`let _ = ... .execute(...)`), so a matching-row
count of zero is still `Ok(())`; the only failure is the statement
itself failing (e.g. the enum cast of `status`). -/
def finalize_transcription_job (s : Store) (job_id : Nat) (status : String)
    (transcript transcript_format last_error : Option String)
    (duration_seconds size_bytes : Option Int) (now : Nat) :
    Except DbError Store :=
  match parseStatus status with
  | none => Except.error DbError.storeError
  | some st =>
      Except.ok (s.map fun j =>
        if j.id = job_id then
          finalizeUpdateRow st transcript transcript_format last_error
            duration_seconds size_bytes now j
        else j)

/-- One call to the `TranscriptionExt` surface, with its arguments. -/
inductive DbOp
  | enqueueOp (user_id : Option Nat) (source_url : String) (priority : Int)
      (max_attempts : Int) (new_id : Nat)
  | claimOp (worker_id : String) (limit : Int)
  | getOp (job_id : Nat)
  | finalizeOp (job_id : Nat) (status : String)
      (transcript transcript_format last_error : Option String)
      (duration_seconds size_bytes : Option Int)
deriving DecidableEq

/-- The value returned to the caller by one call. -/
inductive DbOut
  | newId (id : Nat)
  | batch (jobs : List TranscriptionJob)
  | row (job : Option TranscriptionJob)
  | done
deriving DecidableEq

/-- Whether the call is a `finalize_transcription_job`. -/
def DbOp.isFinalize : DbOp → Bool
  | .finalizeOp .. => true
  | _ => false

/-- One atomic step of the core: run the call against the store, giving
the new table state and the caller-visible output. -/
def applyOp (op : DbOp) (now : Nat) (s : Store) :
    Except DbError (Store × DbOut) :=
  match op with
  | .enqueueOp u url p m i =>
      let r := enqueue_transcription s u url p m i now
      Except.ok (r.2, DbOut.newId r.1)
  | .claimOp w l =>
      (claim_transcription_jobs s w l now).map fun r => (r.2, DbOut.batch r.1)
  | .getOp id =>
      Except.ok (s, DbOut.row (get_transcription_job s id))
  | .finalizeOp id st t tf err d sb =>
      (finalize_transcription_job s id st t tf err d sb now).map
        fun s' => (s', DbOut.done)

/-- The table state after a call, a failed statement leaving the store
as it was (the source wraps each call in a single all-or-nothing
statement). -/
def stepStore (op : DbOp) (now : Nat) (s : Store) : Store :=
  match applyOp op now s with
  | Except.error _ => s
  | Except.ok r => r.1

/-- Run a sequence of claim calls one after the other (each call is one
atomic statement, so any concurrent schedule executes them in some
serial order); collects the batch of every successful call. -/
def runClaims (calls : List (String × Int × Nat)) (s : Store) :
    List (List TranscriptionJob) × Store :=
  match calls with
  | [] => ([], s)
  | c :: rest =>
    match claim_transcription_jobs s c.1 c.2.1 c.2.2 with
    | Except.error _ => runClaims rest s
    | Except.ok r =>
      let tail := runClaims rest r.2
      (r.1 :: tail.1, tail.2)

/-- The ids of a batch's rows. -/
def batchIds (b : List TranscriptionJob) : List Nat :=
  b.map fun j => j.id

/-- The ids of the store's rows (the primary-key column). -/
def storeIds (s : Store) : List Nat :=
  s.map fun j => j.id

/-- No row of `s` whose id lies in `X` is still `enqueued`. -/
def noEnq (X : List Nat) (s : Store) : Prop :=
  ∀ j ∈ s, j.id ∈ X → j.status ≠ JobStatus.enqueued

/-- A fixture row for concrete runs: only the fields the queue logic
reads vary, the rest are the enqueue defaults. -/
def mkJob (id : Nat) (st : JobStatus) (priority : Int) (created_at : Nat) :
    TranscriptionJob :=
  { newJobRow none "url" priority 3 id created_at with status := st }

/-! ### General lemmas about the claim operation -/

theorem eligibleSorted_pairwise (s : Store) :
    List.Pairwise claimOrder (eligibleSorted s) :=
  List.sorted_insertionSort claimOrder _

theorem mem_eligibleSorted {s : Store} {j : TranscriptionJob} :
    j ∈ eligibleSorted s ↔ j ∈ s ∧ j.status = JobStatus.enqueued := by
  unfold eligibleSorted
  rw [(List.perm_insertionSort _ _).mem_iff]
  simp [List.mem_filter]

theorem mem_claimSel {s : Store} {limit : Int} {p : TranscriptionJob}
    (hp : p ∈ claimSel s limit) :
    p ∈ s ∧ p.status = JobStatus.enqueued :=
  mem_eligibleSorted.mp (List.mem_of_mem_take hp)

theorem claim_ok_inv {s : Store} {w : String} {limit : Int} {now : Nat}
    {batch : List TranscriptionJob} {s' : Store}
    (h : claim_transcription_jobs s w limit now = Except.ok (batch, s')) :
    ¬ limit < 0 ∧
    batch = (claimSel s limit).map (claimUpdateRow w now) ∧
    s' = s.map fun j =>
      if j.id ∈ claimSelIds s limit then claimUpdateRow w now j else j := by
  by_cases hl : limit < 0
  · simp [claim_transcription_jobs, hl] at h
  · simp only [claim_transcription_jobs, if_neg hl, Except.ok.injEq,
      Prod.mk.injEq] at h
    exact ⟨hl, h.1.symm, h.2.symm⟩

theorem claimUpdateRow_id (w : String) (now : Nat) (j : TranscriptionJob) :
    (claimUpdateRow w now j).id = j.id := rfl

theorem claim_batch_ids {s : Store} {w : String} {limit : Int} {now : Nat}
    {batch : List TranscriptionJob} {s' : Store}
    (h : claim_transcription_jobs s w limit now = Except.ok (batch, s')) :
    batchIds batch = claimSelIds s limit := by
  obtain ⟨-, hb, -⟩ := claim_ok_inv h
  subst hb
  unfold batchIds claimSelIds
  rw [List.map_map]
  exact List.map_congr_left fun j _ => rfl

theorem claim_store_ids {s : Store} {w : String} {limit : Int} {now : Nat}
    {batch : List TranscriptionJob} {s' : Store}
    (h : claim_transcription_jobs s w limit now = Except.ok (batch, s')) :
    storeIds s' = storeIds s := by
  obtain ⟨-, -, hs'⟩ := claim_ok_inv h
  subst hs'
  unfold storeIds
  rw [List.map_map]
  refine List.map_congr_left fun j _ => ?_
  by_cases hid : j.id ∈ claimSelIds s limit <;>
    simp [Function.comp, hid, claimUpdateRow]

theorem claim_batch_mem {s : Store} {w : String} {limit : Int} {now : Nat}
    {batch : List TranscriptionJob} {s' : Store}
    (h : claim_transcription_jobs s w limit now = Except.ok (batch, s'))
    {r : TranscriptionJob} (hr : r ∈ batch) :
    ∃ p ∈ s, p.status = JobStatus.enqueued ∧ r = claimUpdateRow w now p := by
  obtain ⟨-, hb, -⟩ := claim_ok_inv h
  subst hb
  rcases List.mem_map.mp hr with ⟨p, hp, hup⟩
  rcases mem_claimSel hp with ⟨hps, hpe⟩
  exact ⟨p, hps, hpe, hup.symm⟩

theorem claim_new_store_mem {s : Store} {w : String} {limit : Int} {now : Nat}
    {batch : List TranscriptionJob} {s' : Store}
    (h : claim_transcription_jobs s w limit now = Except.ok (batch, s'))
    {j' : TranscriptionJob} (hj' : j' ∈ s') :
    ∃ j ∈ s, j'.id = j.id ∧ (j' = j ∨ j'.status = JobStatus.processing) := by
  obtain ⟨-, -, hs'⟩ := claim_ok_inv h
  subst hs'
  rcases List.mem_map.mp hj' with ⟨j, hj, hfj⟩
  refine ⟨j, hj, ?_⟩
  by_cases hid : j.id ∈ claimSelIds s limit
  · rw [if_pos hid] at hfj
    subst hfj
    exact ⟨rfl, Or.inr rfl⟩
  · rw [if_neg hid] at hfj
    subst hfj
    exact ⟨rfl, Or.inl rfl⟩

theorem claim_post_processing {s : Store} {w : String} {limit : Int}
    {now : Nat} {batch : List TranscriptionJob} {s' : Store}
    (h : claim_transcription_jobs s w limit now = Except.ok (batch, s'))
    {j' : TranscriptionJob} (hj' : j' ∈ s')
    (hid : j'.id ∈ batchIds batch) : j'.status = JobStatus.processing := by
  rw [claim_batch_ids h] at hid
  obtain ⟨-, -, hs'⟩ := claim_ok_inv h
  subst hs'
  rcases List.mem_map.mp hj' with ⟨j, hj, hfj⟩
  by_cases hmem : j.id ∈ claimSelIds s limit
  · rw [if_pos hmem] at hfj
    subst hfj
    rfl
  · rw [if_neg hmem] at hfj
    subst hfj
    exact absurd hid hmem

theorem claim_batch_nodup {s : Store} {w : String} {limit : Int} {now : Nat}
    {batch : List TranscriptionJob} {s' : Store}
    (h : claim_transcription_jobs s w limit now = Except.ok (batch, s'))
    (hs : (storeIds s).Nodup) : (batchIds batch).Nodup := by
  rw [claim_batch_ids h]
  have h1 : ((s.filter fun j =>
      decide (j.status = JobStatus.enqueued)).map fun j => j.id).Nodup :=
    ((List.filter_sublist s).map _).nodup hs
  have h2 : ((eligibleSorted s).map fun j => j.id).Nodup := by
    unfold eligibleSorted
    exact (((List.perm_insertionSort claimOrder _).map _).nodup_iff).mpr h1
  exact ((List.take_sublist _ _).map _).nodup h2

theorem claim_preserves_noEnq {s : Store} {w : String} {limit : Int}
    {now : Nat} {batch : List TranscriptionJob} {s' : Store} {X : List Nat}
    (h : claim_transcription_jobs s w limit now = Except.ok (batch, s'))
    (hX : noEnq X s) : noEnq X s' := by
  intro j' hj' hidX
  rcases claim_new_store_mem h hj' with ⟨j, hj, hid, hcase⟩
  rcases hcase with hcase | hcase
  · subst hcase
    exact hX j' hj hidX
  · rw [hcase]
    intro hc
    exact JobStatus.noConfusion hc

theorem claim_batch_fresh {s : Store} {w : String} {limit : Int}
    {now : Nat} {batch : List TranscriptionJob} {s' : Store} {X : List Nat}
    (h : claim_transcription_jobs s w limit now = Except.ok (batch, s'))
    (hX : noEnq X s) : ∀ i ∈ batchIds batch, i ∉ X := by
  intro i hi hiX
  rcases List.mem_map.mp hi with ⟨r, hr, hri⟩
  rcases claim_batch_mem h hr with ⟨p, hp, hpe, hrp⟩
  have hpid : p.id = i := by rw [← hri, hrp]; rfl
  exact hX p hp (by rw [hpid]; exact hiX) hpe

theorem claim_noEnq_batch {s : Store} {w : String} {limit : Int}
    {now : Nat} {batch : List TranscriptionJob} {s' : Store}
    (h : claim_transcription_jobs s w limit now = Except.ok (batch, s')) :
    noEnq (batchIds batch) s' := by
  intro j' hj' hid
  rw [claim_post_processing h hj' hid]
  intro hc
  exact JobStatus.noConfusion hc

theorem runClaims_nodup_aux (calls : List (String × Int × Nat)) (s : Store)
    (X : List Nat) (hs : (storeIds s).Nodup) (hX : X.Nodup)
    (hnoenq : noEnq X s) :
    (X ++ (((runClaims calls s).1).map batchIds).flatten).Nodup := by
  induction calls generalizing s X with
  | nil => simpa [runClaims] using hX
  | cons c rest ih =>
    rcases hc : claim_transcription_jobs s c.1 c.2.1 c.2.2 with e | r
    · simp only [runClaims, hc]
      exact ih s X hs hX hnoenq
    · obtain ⟨b, s1⟩ := r
      simp only [runClaims, hc, List.map_cons, List.flatten_cons]
      rw [← List.append_assoc]
      refine ih s1 (X ++ batchIds b) ?_ ?_ ?_
      · rw [claim_store_ids hc]
        exact hs
      · refine List.nodup_append.mpr ⟨hX, claim_batch_nodup hc hs, ?_⟩
        intro a haX hab
        exact claim_batch_fresh hc hnoenq a hab haX
      · intro j hj hid
        rcases List.mem_append.mp hid with hid | hid
        · exact claim_preserves_noEnq hc hnoenq j hj hid
        · exact claim_noEnq_batch hc j hj hid

/-- C1: mutual exclusion of claiming.  Each `claim_transcription_jobs`
call is a single SQL statement whose selection uses
`FOR UPDATE SKIP LOCKED`, so concurrent calls serialize: a row selected
(locked) by one call is skipped by every overlapping call, and any
interleaving of calls is observationally a serial order of the atomic
statements.  Over that model: for any initial table whose primary keys
are distinct and any sequence of claim calls, the union of all returned
batches contains no duplicate job — no job is handed to two calls. -/
theorem claim_mutual_exclusion (s : Store)
    (calls : List (String × Int × Nat)) (hs : (storeIds s).Nodup) :
    ((((runClaims calls s).1).map batchIds).flatten).Nodup := by
  have hbase : noEnq [] s := by
    intro j _ hj
    exact absurd hj (List.not_mem_nil _)
  simpa using runClaims_nodup_aux calls s [] hs List.nodup_nil hbase

/-- Witness for C1: two workers poll a two-job table; the claimed
batches are duplicate-free. -/
theorem claim_mutual_exclusion_witness :
    ((((runClaims [("w1", 1, 5), ("w2", 5, 6)]
      [mkJob 1 JobStatus.enqueued 1 0, mkJob 2 JobStatus.enqueued 5 1]).1).map
      batchIds).flatten).Nodup :=
  claim_mutual_exclusion
    [mkJob 1 JobStatus.enqueued 1 0, mkJob 2 JobStatus.enqueued 5 1]
    [("w1", 1, 5), ("w2", 5, 6)] (by decide)

theorem claimSel_not_skipped {s : Store} {limit : Int}
    {t : TranscriptionJob} (ht : t ∈ s)
    (hst : t.status = JobStatus.enqueued) (hnot : t ∉ claimSel s limit)
    {p : TranscriptionJob} (hp : p ∈ claimSel s limit) :
    claimOrder p t := by
  have hmem : t ∈ eligibleSorted s := mem_eligibleSorted.mpr ⟨ht, hst⟩
  have hsplit := List.take_append_drop limit.toNat (eligibleSorted s)
  have hpw := eligibleSorted_pairwise s
  rw [← hsplit, List.pairwise_append] at hpw
  have hmem' : t ∈ (eligibleSorted s).take limit.toNat ++
      (eligibleSorted s).drop limit.toNat := by
    rw [hsplit]
    exact hmem
  have htd : t ∈ (eligibleSorted s).drop limit.toNat := by
    rcases List.mem_append.mp hmem' with h1 | h2
    · exact absurd h1 hnot
    · exact h2
  exact hpw.2.2 p hp t htd

theorem claimOrder_update (w : String) (now : Nat)
    (a b : TranscriptionJob) :
    claimOrder (claimUpdateRow w now a) (claimUpdateRow w now b) ↔
      claimOrder a b :=
  Iff.rfl

/-- C2: claim ordering.  A successful
`claim_transcription_jobs(worker_id, limit)` selects at most `limit`
rows, all of them `enqueued` before the call; the batch follows the
`priority DESC, created_at ASC` order of the selection, and no eligible
row left behind beats a selected row: a skipped `enqueued` row never has
strictly higher priority than a selected one, and at equal priority the
selected row was created no later than the skipped one. -/
theorem claim_ordering (s : Store) (w : String) (limit : Int) (now : Nat)
    (batch : List TranscriptionJob) (s' : Store)
    (h : claim_transcription_jobs s w limit now = Except.ok (batch, s')) :
    batch.length ≤ limit.toNat ∧
    (∀ r ∈ batch, ∃ p ∈ s, p.status = JobStatus.enqueued ∧
      r = claimUpdateRow w now p) ∧
    List.Pairwise claimOrder batch ∧
    (∀ t ∈ s, t.status = JobStatus.enqueued → t.id ∉ batchIds batch →
      ∀ r ∈ batch, ¬ r.priority < t.priority ∧
        (t.priority = r.priority → r.created_at ≤ t.created_at)) := by
  obtain ⟨-, hb, -⟩ := claim_ok_inv h
  refine ⟨?_, fun r hr => claim_batch_mem h hr, ?_, ?_⟩
  · rw [hb, List.length_map, claimSel, List.length_take]
    exact Nat.min_le_left _ _
  · rw [hb, List.pairwise_map]
    have hsel : List.Pairwise claimOrder (claimSel s limit) :=
      List.Pairwise.sublist (List.take_sublist _ _)
        (eligibleSorted_pairwise s)
    exact hsel.imp fun hab => (claimOrder_update w now _ _).mpr hab
  · intro t ht hst hnot r hr
    have hids := claim_batch_ids h
    have htns : t ∉ claimSel s limit := by
      intro hts
      apply hnot
      rw [hids]
      exact List.mem_map.mpr ⟨t, hts, rfl⟩
    rw [hb] at hr
    rcases List.mem_map.mp hr with ⟨p, hp, hpr⟩
    have hle : claimOrder p t := claimSel_not_skipped ht hst htns hp
    have hpri : r.priority = p.priority := by rw [← hpr]; rfl
    have hcre : r.created_at = p.created_at := by rw [← hpr]; rfl
    rw [hpri, hcre]
    unfold claimOrder at hle
    constructor
    · omega
    · omega

/-- Witness for C2: two enqueued jobs with priorities 1 and 5; a
`limit = 1` claim takes the priority-5 job and the ordering conclusions
hold for that batch. -/
theorem claim_ordering_witness :
    claim_transcription_jobs
      [mkJob 1 JobStatus.enqueued 1 0, mkJob 2 JobStatus.enqueued 5 1]
      "w" 1 10 =
      Except.ok ([claimUpdateRow "w" 10 (mkJob 2 JobStatus.enqueued 5 1)],
        [mkJob 1 JobStatus.enqueued 1 0,
          claimUpdateRow "w" 10 (mkJob 2 JobStatus.enqueued 5 1)]) ∧
    ([claimUpdateRow "w" 10 (mkJob 2 JobStatus.enqueued 5 1)].length
        ≤ (1 : Int).toNat ∧
      (∀ r ∈ [claimUpdateRow "w" 10 (mkJob 2 JobStatus.enqueued 5 1)],
        ∃ p ∈ [mkJob 1 JobStatus.enqueued 1 0,
            mkJob 2 JobStatus.enqueued 5 1],
          p.status = JobStatus.enqueued ∧ r = claimUpdateRow "w" 10 p) ∧
      List.Pairwise claimOrder
        [claimUpdateRow "w" 10 (mkJob 2 JobStatus.enqueued 5 1)] ∧
      (∀ t ∈ [mkJob 1 JobStatus.enqueued 1 0,
          mkJob 2 JobStatus.enqueued 5 1],
        t.status = JobStatus.enqueued →
        t.id ∉ batchIds
          [claimUpdateRow "w" 10 (mkJob 2 JobStatus.enqueued 5 1)] →
        ∀ r ∈ [claimUpdateRow "w" 10 (mkJob 2 JobStatus.enqueued 5 1)],
          ¬ r.priority < t.priority ∧
            (t.priority = r.priority → r.created_at ≤ t.created_at))) :=
  ⟨by rfl,
    claim_ordering
      [mkJob 1 JobStatus.enqueued 1 0, mkJob 2 JobStatus.enqueued 5 1]
      "w" 1 10
      [claimUpdateRow "w" 10 (mkJob 2 JobStatus.enqueued 5 1)]
      [mkJob 1 JobStatus.enqueued 1 0,
        claimUpdateRow "w" 10 (mkJob 2 JobStatus.enqueued 5 1)]
      (by rfl)⟩

/-- C3: claim postcondition.  Every row returned by a successful
`claim_transcription_jobs(worker_id, limit)` has
`status = 'processing'`, `worker_id` the caller's id,
`started_at`/`updated_at` the claim time, and `attempts` exactly one
more than the row's previous value; and the returned row is the stored
post-update row (RETURNING yields the row the UPDATE wrote). -/
theorem claim_postcondition (s : Store) (w : String) (limit : Int)
    (now : Nat) (batch : List TranscriptionJob) (s' : Store)
    (h : claim_transcription_jobs s w limit now = Except.ok (batch, s'))
    (r : TranscriptionJob) (hr : r ∈ batch) :
    r.status = JobStatus.processing ∧ r.worker_id = some w ∧
    r.started_at = some now ∧ r.updated_at = now ∧
    (∃ p ∈ s, p.status = JobStatus.enqueued ∧
      r = claimUpdateRow w now p ∧ r.attempts = p.attempts + 1) ∧
    r ∈ s' := by
  obtain ⟨-, hb, hs'⟩ := claim_ok_inv h
  subst hb
  rcases List.mem_map.mp hr with ⟨p, hp, hpr⟩
  rcases mem_claimSel hp with ⟨hps, hpe⟩
  subst hpr
  refine ⟨rfl, rfl, rfl, rfl, ⟨p, hps, hpe, rfl, rfl⟩, ?_⟩
  subst hs'
  have hpid : p.id ∈ claimSelIds s limit := List.mem_map.mpr ⟨p, hp, rfl⟩
  refine List.mem_map.mpr ⟨p, hps, ?_⟩
  rw [if_pos hpid]

/-- Witness for C3: a single enqueued job is claimed and the returned
row carries the post-transition values. -/
theorem claim_postcondition_witness :
    (claimUpdateRow "w7" 4 (mkJob 9 JobStatus.enqueued 2 1)).status =
        JobStatus.processing ∧
    (claimUpdateRow "w7" 4 (mkJob 9 JobStatus.enqueued 2 1)).worker_id =
        some "w7" ∧
    (claimUpdateRow "w7" 4 (mkJob 9 JobStatus.enqueued 2 1)).started_at =
        some 4 ∧
    (claimUpdateRow "w7" 4 (mkJob 9 JobStatus.enqueued 2 1)).updated_at =
        4 ∧
    (∃ p ∈ [mkJob 9 JobStatus.enqueued 2 1],
      p.status = JobStatus.enqueued ∧
      claimUpdateRow "w7" 4 (mkJob 9 JobStatus.enqueued 2 1) =
        claimUpdateRow "w7" 4 p ∧
      (claimUpdateRow "w7" 4 (mkJob 9 JobStatus.enqueued 2 1)).attempts =
        p.attempts + 1) ∧
    claimUpdateRow "w7" 4 (mkJob 9 JobStatus.enqueued 2 1) ∈
      [claimUpdateRow "w7" 4 (mkJob 9 JobStatus.enqueued 2 1)] :=
  claim_postcondition [mkJob 9 JobStatus.enqueued 2 1] "w7" 3 4
    [claimUpdateRow "w7" 4 (mkJob 9 JobStatus.enqueued 2 1)]
    [claimUpdateRow "w7" 4 (mkJob 9 JobStatus.enqueued 2 1)]
    (by rfl) (claimUpdateRow "w7" 4 (mkJob 9 JobStatus.enqueued 2 1))
    (List.mem_singleton.mpr rfl)

/-- C8: partial and empty batches.  When fewer than `limit` rows are
`enqueued`, the claim succeeds and returns exactly the eligible rows
(after their transition); with zero `enqueued` rows the batch is empty
and no error is raised. -/
theorem claim_under_limit (s : Store) (w : String) (limit : Int)
    (now : Nat)
    (hcount : ((s.filter fun j =>
      decide (j.status = JobStatus.enqueued)).length : Int) < limit) :
    ∃ batch s', claim_transcription_jobs s w limit now =
        Except.ok (batch, s') ∧
      batch.Perm ((s.filter fun j =>
        decide (j.status = JobStatus.enqueued)).map
        (claimUpdateRow w now)) ∧
      ((s.filter fun j => decide (j.status = JobStatus.enqueued)) = [] →
        batch = []) := by
  have hl0 : ¬ limit < 0 := by omega
  have hlen : (eligibleSorted s).length ≤ limit.toNat := by
    have heq : (eligibleSorted s).length =
        (s.filter fun j => decide (j.status = JobStatus.enqueued)).length :=
      (List.perm_insertionSort _ _).length_eq
    omega
  have hsel : claimSel s limit = eligibleSorted s := by
    unfold claimSel
    exact List.take_of_length_le hlen
  refine ⟨(claimSel s limit).map (claimUpdateRow w now),
    s.map fun j =>
      if j.id ∈ claimSelIds s limit then claimUpdateRow w now j else j,
    ?_, ?_, ?_⟩
  · simp only [claim_transcription_jobs, if_neg hl0]
  · rw [hsel]
    exact (List.perm_insertionSort claimOrder _).map _
  · intro hnil
    rw [hsel]
    unfold eligibleSorted
    rw [hnil]
    rfl

/-- Witness for C8: claiming from an empty store with `limit = 10`
succeeds with an empty batch. -/
theorem claim_under_limit_witness :
    ∃ batch s', claim_transcription_jobs [] "w" 10 0 =
        Except.ok (batch, s') ∧
      batch.Perm (([] : Store).map (claimUpdateRow "w" 0)) ∧
      (([] : Store) = [] → batch = []) := by
  have h := claim_under_limit [] "w" 10 0 (by decide)
  simpa using h

/-- C10: claim frame.  A claim call leaves every row whose id is not in
the returned batch entirely unchanged: the new table has the same
length, and at every position holding a non-returned id the row is
byte-for-byte the old one. -/
theorem claim_frame (s : Store) (w : String) (limit : Int) (now : Nat)
    (batch : List TranscriptionJob) (s' : Store)
    (h : claim_transcription_jobs s w limit now = Except.ok (batch, s')) :
    s'.length = s.length ∧
    ∀ i (hi : i < s.length), (s.get ⟨i, hi⟩).id ∉ batchIds batch →
      ∀ hi' : i < s'.length, s'.get ⟨i, hi'⟩ = s.get ⟨i, hi⟩ := by
  have hids := claim_batch_ids h
  obtain ⟨-, -, hs'⟩ := claim_ok_inv h
  subst hs'
  refine ⟨List.length_map _ _, ?_⟩
  intro i hi hnot hi'
  rw [hids] at hnot
  simp only [List.get_eq_getElem] at hnot ⊢
  rw [List.getElem_map]
  rw [if_neg hnot]

/-- Witness for C10: the non-selected lower-priority row of a two-job
store is untouched by a `limit = 1` claim. -/
theorem claim_frame_witness :
    ([mkJob 1 JobStatus.enqueued 1 0,
        claimUpdateRow "w" 10 (mkJob 2 JobStatus.enqueued 5 1)] :
      Store).length =
      ([mkJob 1 JobStatus.enqueued 1 0,
        mkJob 2 JobStatus.enqueued 5 1] : Store).length ∧
    ∀ i (hi : i < ([mkJob 1 JobStatus.enqueued 1 0,
        mkJob 2 JobStatus.enqueued 5 1] : Store).length),
      (([mkJob 1 JobStatus.enqueued 1 0,
        mkJob 2 JobStatus.enqueued 5 1] : Store).get ⟨i, hi⟩).id ∉
        batchIds [claimUpdateRow "w" 10 (mkJob 2 JobStatus.enqueued 5 1)] →
      ∀ hi' : i < ([mkJob 1 JobStatus.enqueued 1 0,
          claimUpdateRow "w" 10 (mkJob 2 JobStatus.enqueued 5 1)] :
        Store).length,
        ([mkJob 1 JobStatus.enqueued 1 0,
          claimUpdateRow "w" 10 (mkJob 2 JobStatus.enqueued 5 1)] :
          Store).get ⟨i, hi'⟩ =
          ([mkJob 1 JobStatus.enqueued 1 0,
            mkJob 2 JobStatus.enqueued 5 1] : Store).get ⟨i, hi⟩ :=
  claim_frame [mkJob 1 JobStatus.enqueued 1 0, mkJob 2 JobStatus.enqueued 5 1]
    "w" 1 10 [claimUpdateRow "w" 10 (mkJob 2 JobStatus.enqueued 5 1)]
    [mkJob 1 JobStatus.enqueued 1 0,
      claimUpdateRow "w" 10 (mkJob 2 JobStatus.enqueued 5 1)]
    (by rfl)

/-- Identity fields (`id`, `source_url`, `user_id`, `created_at`) of a
row are untouched by a row-transformer. -/
def PreservesIdentity (f : TranscriptionJob → TranscriptionJob) : Prop :=
  ∀ j : TranscriptionJob, (f j).id = j.id ∧
    (f j).source_url = j.source_url ∧ (f j).user_id = j.user_id ∧
    (f j).created_at = j.created_at

theorem map_preserves_identity {s : Store}
    {f : TranscriptionJob → TranscriptionJob} (hf : PreservesIdentity f)
    (i : Nat) (hi : i < s.length) :
    ∃ hi' : i < (s.map f).length,
      ((s.map f).get ⟨i, hi'⟩).id = (s.get ⟨i, hi⟩).id ∧
      ((s.map f).get ⟨i, hi'⟩).source_url = (s.get ⟨i, hi⟩).source_url ∧
      ((s.map f).get ⟨i, hi'⟩).user_id = (s.get ⟨i, hi⟩).user_id ∧
      ((s.map f).get ⟨i, hi'⟩).created_at = (s.get ⟨i, hi⟩).created_at := by
  have hi' : i < (s.map f).length := by
    rw [List.length_map]
    exact hi
  refine ⟨hi', ?_⟩
  simp only [List.get_eq_getElem, List.getElem_map]
  exact hf _

theorem claim_row_transformer_identity (s : Store) (w : String)
    (limit : Int) (now : Nat) :
    PreservesIdentity fun j =>
      if j.id ∈ claimSelIds s limit then claimUpdateRow w now j else j := by
  intro j
  by_cases hid : j.id ∈ claimSelIds s limit <;>
    simp [hid, claimUpdateRow]

theorem finalize_row_transformer_identity (job_id : Nat) (st : JobStatus)
    (t tf err : Option String) (d sb : Option Int) (now : Nat) :
    PreservesIdentity fun j =>
      if j.id = job_id then finalizeUpdateRow st t tf err d sb now j
      else j := by
  intro j
  by_cases hid : j.id = job_id <;>
    simp [hid, finalizeUpdateRow]

/-- C9: identity immutability.  Whatever call of the core succeeds on
the store — enqueue, claim, get or finalize — every pre-existing row
keeps its `id`, `source_url`, `user_id` (the submitter reference) and
`created_at` unchanged, at its position in the table. -/
theorem identity_immutable (op : DbOp) (now : Nat) (s s' : Store)
    (out : DbOut) (h : applyOp op now s = Except.ok (s', out)) :
    ∀ i (hi : i < s.length), ∃ hi' : i < s'.length,
      (s'.get ⟨i, hi'⟩).id = (s.get ⟨i, hi⟩).id ∧
      (s'.get ⟨i, hi'⟩).source_url = (s.get ⟨i, hi⟩).source_url ∧
      (s'.get ⟨i, hi'⟩).user_id = (s.get ⟨i, hi⟩).user_id ∧
      (s'.get ⟨i, hi'⟩).created_at = (s.get ⟨i, hi⟩).created_at := by
  intro i hi
  cases op with
  | enqueueOp u url p m nid =>
      simp only [applyOp, enqueue_transcription, Except.ok.injEq,
        Prod.mk.injEq] at h
      obtain ⟨hs', -⟩ := h
      subst hs'
      have hi' : i < (s ++ [newJobRow u url p m nid now]).length := by
        rw [List.length_append]
        omega
      refine ⟨hi', ?_⟩
      simp only [List.get_eq_getElem]
      rw [List.getElem_append_left hi]
      exact ⟨rfl, rfl, rfl, rfl⟩
  | claimOp wk l =>
      rcases hc : claim_transcription_jobs s wk l now with e | r
      · rw [applyOp, hc] at h
        exact absurd h (by simp [Except.map])
      · rw [applyOp, hc] at h
        simp only [Except.map, Except.ok.injEq, Prod.mk.injEq] at h
        obtain ⟨hs', -⟩ := h
        obtain ⟨-, -, hr2⟩ := claim_ok_inv hc
        rw [← hs', hr2]
        exact map_preserves_identity
          (claim_row_transformer_identity s wk l now) i hi
  | getOp id =>
      simp only [applyOp, Except.ok.injEq, Prod.mk.injEq] at h
      obtain ⟨hs', -⟩ := h
      subst hs'
      exact ⟨hi, rfl, rfl, rfl, rfl⟩
  | finalizeOp id st t tf err d sb =>
      rcases hps : parseStatus st with _ | stv
      · rw [applyOp] at h
        unfold finalize_transcription_job at h
        rw [hps] at h
        exact absurd h (by simp [Except.map])
      · rw [applyOp] at h
        unfold finalize_transcription_job at h
        rw [hps] at h
        simp only [Except.map, Except.ok.injEq, Prod.mk.injEq] at h
        obtain ⟨hs', -⟩ := h
        rw [← hs']
        exact map_preserves_identity
          (finalize_row_transformer_identity id stv t tf err d sb now) i hi

/-- Witness for C9: finalizing the single job of a store (position 0)
keeps its identity fields. -/
theorem identity_immutable_witness :
    ∃ hi' : 0 < ([finalizeUpdateRow JobStatus.succeeded (some "T")
        (some "txt") none none none 9
        (mkJob 4 JobStatus.processing 1 2)] : Store).length,
      (([finalizeUpdateRow JobStatus.succeeded (some "T") (some "txt")
          none none none 9 (mkJob 4 JobStatus.processing 1 2)] :
          Store).get ⟨0, hi'⟩).id =
        (([mkJob 4 JobStatus.processing 1 2] : Store).get
          ⟨0, by decide⟩).id ∧
      (([finalizeUpdateRow JobStatus.succeeded (some "T") (some "txt")
          none none none 9 (mkJob 4 JobStatus.processing 1 2)] :
          Store).get ⟨0, hi'⟩).source_url =
        (([mkJob 4 JobStatus.processing 1 2] : Store).get
          ⟨0, by decide⟩).source_url ∧
      (([finalizeUpdateRow JobStatus.succeeded (some "T") (some "txt")
          none none none 9 (mkJob 4 JobStatus.processing 1 2)] :
          Store).get ⟨0, hi'⟩).user_id =
        (([mkJob 4 JobStatus.processing 1 2] : Store).get
          ⟨0, by decide⟩).user_id ∧
      (([finalizeUpdateRow JobStatus.succeeded (some "T") (some "txt")
          none none none 9 (mkJob 4 JobStatus.processing 1 2)] :
          Store).get ⟨0, hi'⟩).created_at =
        (([mkJob 4 JobStatus.processing 1 2] : Store).get
          ⟨0, by decide⟩).created_at :=
  identity_immutable
    (DbOp.finalizeOp 4 "succeeded" (some "T") (some "txt") none none none)
    9 [mkJob 4 JobStatus.processing 1 2]
    [finalizeUpdateRow JobStatus.succeeded (some "T") (some "txt")
      none none none 9 (mkJob 4 JobStatus.processing 1 2)]
    DbOut.done (by rfl) 0 (by decide)

theorem mem_id_eq_get {s : Store} (hs : (storeIds s).Nodup)
    {p : TranscriptionJob} (hp : p ∈ s) {i : Nat} (hi : i < s.length)
    (hid : p.id = (s.get ⟨i, hi⟩).id) : p = s.get ⟨i, hi⟩ := by
  rcases List.get_of_mem hp with ⟨k, hk⟩
  subst hk
  have hk2 : (k : Nat) < (storeIds s).length := by
    simp only [storeIds, List.length_map]
    exact k.2
  have hi2 : i < (storeIds s).length := by
    simp only [storeIds, List.length_map]
    exact hi
  have hval : (storeIds s).get ⟨k, hk2⟩ = (storeIds s).get ⟨i, hi2⟩ := by
    simp only [storeIds, List.get_eq_getElem, List.getElem_map]
    simpa [List.get_eq_getElem] using hid
  have hfin := (hs.get_inj_iff).mp hval
  have hki : (k : Nat) = i := congrArg Fin.val hfin
  rcases k with ⟨kv, hkv⟩
  simp only at hki
  subst hki
  rfl

/-- C4 counterexample: the code lets `finalize_transcription_job`
overwrite a terminal state.  A job already `succeeded` is finalized
again with `"failed"`; the operation succeeds and the row's status
becomes `failed`, leaving the terminal state `succeeded`. -/
theorem finalize_reverts_terminal_cex :
    (mkJob 0 JobStatus.succeeded 1 0).status = JobStatus.succeeded ∧
    finalize_transcription_job [mkJob 0 JobStatus.succeeded 1 0] 0
        "failed" none none (some "E") none none 9 =
      Except.ok [finalizeUpdateRow JobStatus.failed none none (some "E")
        none none 9 (mkJob 0 JobStatus.succeeded 1 0)] ∧
    (finalizeUpdateRow JobStatus.failed none none (some "E") none none 9
      (mkJob 0 JobStatus.succeeded 1 0)).status = JobStatus.failed :=
  ⟨rfl, by rfl, rfl⟩

/-- C4 (amended): the forward-only state machine holds for enqueue,
claim and get: on a table with distinct primary keys, any successful
non-finalize call leaves every pre-existing row's status unchanged or
moves it from `enqueued` to `processing`.  `finalize_transcription_job`
however updates the addressed row's status unconditionally (no
`WHERE status` guard), so an out-of-order finalize can rewrite — even
revert — a terminal state (see the counterexample). -/
theorem forward_state_machine (op : DbOp) (now : Nat) (s s' : Store)
    (out : DbOut) (hs : (storeIds s).Nodup)
    (h : applyOp op now s = Except.ok (s', out))
    (hop : op.isFinalize = false) :
    ∀ i (hi : i < s.length), ∃ hi' : i < s'.length,
      (s'.get ⟨i, hi'⟩).status = (s.get ⟨i, hi⟩).status ∨
      ((s.get ⟨i, hi⟩).status = JobStatus.enqueued ∧
        (s'.get ⟨i, hi'⟩).status = JobStatus.processing) := by
  intro i hi
  cases op with
  | finalizeOp id st t tf err d sb =>
      exact Bool.noConfusion hop
  | enqueueOp u url p m nid =>
      simp only [applyOp, enqueue_transcription, Except.ok.injEq,
        Prod.mk.injEq] at h
      obtain ⟨hs', -⟩ := h
      subst hs'
      have hi' : i < (s ++ [newJobRow u url p m nid now]).length := by
        rw [List.length_append]
        omega
      refine ⟨hi', Or.inl ?_⟩
      simp only [List.get_eq_getElem]
      rw [List.getElem_append_left hi]
  | getOp id =>
      simp only [applyOp, Except.ok.injEq, Prod.mk.injEq] at h
      obtain ⟨hs', -⟩ := h
      subst hs'
      exact ⟨hi, Or.inl rfl⟩
  | claimOp wk l =>
      rcases hc : claim_transcription_jobs s wk l now with e | r
      · rw [applyOp, hc] at h
        exact absurd h (by simp [Except.map])
      · rw [applyOp, hc] at h
        simp only [Except.map, Except.ok.injEq, Prod.mk.injEq] at h
        obtain ⟨hs', -⟩ := h
        obtain ⟨-, -, hr2⟩ := claim_ok_inv hc
        rw [← hs', hr2]
        have hi' : i < (s.map fun j =>
            if j.id ∈ claimSelIds s l then claimUpdateRow wk now j
            else j).length := by
          rw [List.length_map]
          exact hi
        refine ⟨hi', ?_⟩
        simp only [List.get_eq_getElem, List.getElem_map]
        by_cases hmem : s[i].id ∈ claimSelIds s l
        · rcases List.mem_map.mp hmem with ⟨p, hp, hpid⟩
          rcases mem_claimSel hp with ⟨hpins, hpe⟩
          have hpeq : p = s.get ⟨i, hi⟩ :=
            mem_id_eq_get hs hpins hi (by
              rw [hpid]
              simp [List.get_eq_getElem])
          have hpeq2 : p = s[i] :=
            hpeq.trans (List.get_eq_getElem s ⟨i, hi⟩)
          refine Or.inr ⟨?_, ?_⟩
          · rw [← hpeq2]
            exact hpe
          · rw [if_pos hmem]
            rfl
        · rw [if_neg hmem]
          exact Or.inl rfl

/-- Witness for C4 (amended): a claim on a two-job table moves the
selected row (position 1) from `enqueued` to `processing`. -/
theorem forward_state_machine_witness :
    ∃ hi' : 1 < ([mkJob 1 JobStatus.enqueued 1 0,
        claimUpdateRow "w" 10 (mkJob 2 JobStatus.enqueued 5 1)] :
      Store).length,
      (([mkJob 1 JobStatus.enqueued 1 0,
          claimUpdateRow "w" 10 (mkJob 2 JobStatus.enqueued 5 1)] :
          Store).get ⟨1, hi'⟩).status =
        (([mkJob 1 JobStatus.enqueued 1 0,
          mkJob 2 JobStatus.enqueued 5 1] : Store).get
            ⟨1, by decide⟩).status ∨
      ((([mkJob 1 JobStatus.enqueued 1 0,
          mkJob 2 JobStatus.enqueued 5 1] : Store).get
            ⟨1, by decide⟩).status = JobStatus.enqueued ∧
        (([mkJob 1 JobStatus.enqueued 1 0,
          claimUpdateRow "w" 10 (mkJob 2 JobStatus.enqueued 5 1)] :
          Store).get ⟨1, hi'⟩).status = JobStatus.processing) :=
  forward_state_machine (DbOp.claimOp "w" 1) 10
    [mkJob 1 JobStatus.enqueued 1 0, mkJob 2 JobStatus.enqueued 5 1]
    [mkJob 1 JobStatus.enqueued 1 0,
      claimUpdateRow "w" 10 (mkJob 2 JobStatus.enqueued 5 1)]
    (DbOut.batch [claimUpdateRow "w" 10 (mkJob 2 JobStatus.enqueued 5 1)])
    (by decide) (by rfl) (by rfl) 1 (by decide)

/-- C5 counterexample: `"enqueued"` is neither `succeeded` nor `failed`,
yet `finalize_transcription_job` accepts it (it is a valid value of the
`transcription_status` enum, and the code checks nothing more), returns
success and rewrites the row's status to `enqueued`. -/
theorem finalize_no_validation_cex :
    finalize_transcription_job [mkJob 3 JobStatus.processing 1 0] 3
        "enqueued" none none none none none 8 =
      Except.ok [finalizeUpdateRow JobStatus.enqueued none none none
        none none 8 (mkJob 3 JobStatus.processing 1 0)] ∧
    (finalizeUpdateRow JobStatus.enqueued none none none none none 8
      (mkJob 3 JobStatus.processing 1 0)).status = JobStatus.enqueued :=
  ⟨by rfl, rfl⟩

/-- C5 (amended): the code performs no terminal-status validation of
its own; the only rejection comes from the enum cast.  A status string
outside the enum domain {enqueued, processing, succeeded, failed} makes
the statement fail with a store-level error and leaves every row
unchanged; any of the four labels — including the non-terminal
`enqueued` and `processing` — is accepted and applied. -/
theorem finalize_invalid_status (s : Store) (job_id : Nat) (st : String)
    (t tf err : Option String) (d sb : Option Int) (now : Nat)
    (hst : parseStatus st = none) :
    finalize_transcription_job s job_id st t tf err d sb now =
      Except.error DbError.storeError ∧
    stepStore (DbOp.finalizeOp job_id st t tf err d sb) now s = s := by
  have hfin : finalize_transcription_job s job_id st t tf err d sb now =
      Except.error DbError.storeError := by
    unfold finalize_transcription_job
    rw [hst]
  refine ⟨hfin, ?_⟩
  simp [stepStore, applyOp, hfin, Except.map]

/-- Witness for C5 (amended): the status string `"bogus"` fails the
cast; the call errors and the one-job store is untouched. -/
theorem finalize_invalid_status_witness :
    parseStatus "bogus" = none ∧
    (finalize_transcription_job [mkJob 3 JobStatus.processing 1 0] 3
        "bogus" none none none none none 8 =
      Except.error DbError.storeError ∧
    stepStore (DbOp.finalizeOp 3 "bogus" none none none none none) 8
      [mkJob 3 JobStatus.processing 1 0] =
        [mkJob 3 JobStatus.processing 1 0]) :=
  ⟨by decide,
    finalize_invalid_status [mkJob 3 JobStatus.processing 1 0] 3 "bogus"
      none none none none none 8 (by decide)⟩

/-- C6 counterexample: finalizing an id that matches no row reports
success — the UPDATE affects zero rows and the source discards the
rows-affected count (`let _ = ... .execute(...)`) — rather than failing
with NotFound. -/
theorem finalize_unknown_id_cex :
    finalize_transcription_job [mkJob 1 JobStatus.processing 1 0] 5
        "failed" none none (some "E") none none 3 =
      Except.ok [mkJob 1 JobStatus.processing 1 0] := by
  rfl

/-- C6 (amended): finalize on an id present in no row is a successful
no-op whenever the status string passes the enum cast: it returns Ok
and leaves the table exactly as it was.  No NotFound error exists in
this code path. -/
theorem finalize_unknown_id_noop (s : Store) (job_id : Nat) (st : String)
    (t tf err : Option String) (d sb : Option Int) (now : Nat)
    (hid : ∀ j ∈ s, j.id ≠ job_id) (stv : JobStatus)
    (hst : parseStatus st = some stv) :
    finalize_transcription_job s job_id st t tf err d sb now =
      Except.ok s := by
  unfold finalize_transcription_job
  rw [hst]
  have hmap : (s.map fun j =>
      if j.id = job_id then
        finalizeUpdateRow stv t tf err d sb now j
      else j) = s :=
    (List.map_congr_left fun j hj => if_neg (hid j hj)).trans
      (List.map_id' s)
  exact congrArg Except.ok hmap

/-- Witness for C6 (amended): id 5 matches nothing in a one-job store;
the finalize call returns Ok with the store unchanged. -/
theorem finalize_unknown_id_noop_witness :
    (∀ j ∈ ([mkJob 1 JobStatus.processing 1 0] : Store), j.id ≠ 5) ∧
    parseStatus "failed" = some JobStatus.failed ∧
    finalize_transcription_job [mkJob 1 JobStatus.processing 1 0] 5
        "failed" none none (some "E") none none 3 =
      Except.ok [mkJob 1 JobStatus.processing 1 0] :=
  ⟨by decide, by decide,
    finalize_unknown_id_noop [mkJob 1 JobStatus.processing 1 0] 5
      "failed" none none (some "E") none none 3 (by decide)
      JobStatus.failed (by decide)⟩

/-- C7 counterexample: `limit = 0` is non-positive, yet the claim call
succeeds (Postgres accepts `LIMIT 0`): it returns Ok with the empty
batch and the store unchanged, not an InvalidArgument failure. -/
theorem claim_zero_limit_cex :
    claim_transcription_jobs [mkJob 1 JobStatus.enqueued 1 0] "w" 0 5 =
      Except.ok ([], [mkJob 1 JobStatus.enqueued 1 0]) := by
  rfl

/-- C7 (amended): the source does not validate `limit`.  With
`limit = 0` the call succeeds, returns the empty batch and modifies no
row; with `limit < 0` the statement fails with a store-level database
error and, the statement failing atomically, modifies no row either.
No application-level InvalidArgument is raised in either case. -/
theorem claim_nonpositive_limit (s : Store) (w : String) (limit : Int)
    (now : Nat) (h : limit ≤ 0) :
    (limit = 0 ∧ claim_transcription_jobs s w limit now =
        Except.ok ([], s) ∧
      stepStore (DbOp.claimOp w limit) now s = s) ∨
    (limit < 0 ∧ claim_transcription_jobs s w limit now =
        Except.error DbError.storeError ∧
      stepStore (DbOp.claimOp w limit) now s = s) := by
  have hok : limit = 0 → claim_transcription_jobs s w limit now =
      Except.ok ([], s) := by
    intro heq
    subst heq
    have hnil : claimSel s 0 = [] := by
      unfold claimSel
      rw [Int.toNat_zero, List.take_zero]
    have hids : claimSelIds s 0 = [] := by
      unfold claimSelIds
      rw [hnil]
      rfl
    simp only [claim_transcription_jobs]
    rw [if_neg (by omega : ¬ (0 : Int) < 0), hnil, hids]
    have hmap : (s.map fun j =>
        if j.id ∈ ([] : List Nat) then claimUpdateRow w now j else j) =
          s := by
      refine (List.map_congr_left fun j hj => ?_).trans (List.map_id' s)
      exact if_neg (List.not_mem_nil _)
    rw [hmap]
    rfl
  rcases lt_or_eq_of_le h with hlt | heq
  · right
    have herr : claim_transcription_jobs s w limit now =
        Except.error DbError.storeError := by
      simp [claim_transcription_jobs, hlt]
    refine ⟨hlt, herr, ?_⟩
    simp [stepStore, applyOp, herr, Except.map]
  · left
    refine ⟨heq, hok heq, ?_⟩
    simp [stepStore, applyOp, hok heq, Except.map]

/-- Witness for C7 (amended): a `limit = 0` claim on a one-job store. -/
theorem claim_nonpositive_limit_witness :
    ((0 : Int) = 0 ∧
      claim_transcription_jobs [mkJob 1 JobStatus.enqueued 1 0] "w" 0 5 =
        Except.ok ([], [mkJob 1 JobStatus.enqueued 1 0]) ∧
      stepStore (DbOp.claimOp "w" 0) 5 [mkJob 1 JobStatus.enqueued 1 0] =
        [mkJob 1 JobStatus.enqueued 1 0]) ∨
    ((0 : Int) < 0 ∧
      claim_transcription_jobs [mkJob 1 JobStatus.enqueued 1 0] "w" 0 5 =
        Except.error DbError.storeError ∧
      stepStore (DbOp.claimOp "w" 0) 5 [mkJob 1 JobStatus.enqueued 1 0] =
        [mkJob 1 JobStatus.enqueued 1 0]) :=
  claim_nonpositive_limit [mkJob 1 JobStatus.enqueued 1 0] "w" 0 5
    (by decide)

end TranscriptionDb
